import Mathlib

/-!
Verification of the challenge (fraud-proof) evidence model of
`core/primitives/src/challenge.rs`.

The Rust source is shallowly embedded: byte blobs become `List Nat`,
borsh (canonical binary) serialization becomes explicit byte-list
encoders/decoders returning `Option` (borsh fails when a sequence length
exceeds `u32::MAX`), and the externally-defined collaborator types
(`CryptoHash`, `AccountId`, `Signature`, `MerklePath`, the chunk types and
`ValidatorSigner`) are modelled from the specification, which treats them
as opaque deterministic serializable values and capabilities.
-/

namespace Challenges

/-- A byte of the wire encoding, modelled as `Nat`. -/
abbrev Byte := Nat

/-- Little-endian 4-byte encoding of a `u32` length, as borsh writes it. -/
def u32Bytes (n : Nat) : List Byte :=
  [n % 256, n / 256 % 256, n / 65536 % 256, n / 16777216 % 256]

/-- Read a little-endian `u32` from the head of a byte stream. -/
def readU32 : List Byte → Option (Nat × List Byte)
  | b0 :: b1 :: b2 :: b3 :: rest =>
      some (b0 + 256 * b1 + 65536 * b2 + 16777216 * b3, rest)
  | _ => none

/-- borsh encoding of a byte sequence (`Vec<u8>` / `Arc<[u8]>`):
a `u32` length prefix followed by the raw bytes; fails when the length
does not fit in a `u32`. -/
def encBytes (bs : List Byte) : Option (List Byte) :=
  if bs.length < 4294967296 then some (u32Bytes bs.length ++ bs) else none

/-- borsh decoding of a byte sequence: read the `u32` length, then
take that many bytes. -/
def readBytes (l : List Byte) : Option (List Byte × List Byte) :=
  match readU32 l with
  | some (n, rest) =>
      if n ≤ rest.length then some (rest.take n, rest.drop n) else none
  | none => none

/-- borsh encoding of the elements of a sequence, concatenated. -/
def encSeq (enc : α → Option (List Byte)) : List α → Option (List Byte)
  | [] => some []
  | x :: xs =>
      match enc x, encSeq enc xs with
      | some b, some bs => some (b ++ bs)
      | _, _ => none

/-- borsh encoding of a `Vec<T>`: `u32` length prefix, then the elements. -/
def encVec (enc : α → Option (List Byte)) (xs : List α) : Option (List Byte) :=
  if xs.length < 4294967296 then
    (encSeq enc xs).map (fun body => u32Bytes xs.length ++ body)
  else none

/-- Read `n` consecutive values with the element decoder `dec`. -/
def readN (dec : List Byte → Option (α × List Byte)) :
    Nat → List Byte → Option (List α × List Byte)
  | 0, l => some ([], l)
  | n + 1, l =>
      match dec l with
      | some (a, l1) =>
          match readN dec n l1 with
          | some (as, l2) => some (a :: as, l2)
          | none => none
      | none => none

/-- borsh decoding of a `Vec<T>`: read the `u32` count, then that many
elements. -/
def readVec (dec : List Byte → Option (α × List Byte)) (l : List Byte) :
    Option (List α × List Byte) :=
  match readU32 l with
  | some (n, rest) => readN dec n rest
  | none => none

theorem readU32_u32Bytes (n : Nat) (h : n < 4294967296) (rest : List Byte) :
    readU32 (u32Bytes n ++ rest) = some (n, rest) := by
  simp only [u32Bytes, List.cons_append, List.nil_append, readU32]
  congr 1
  congr 1
  omega

theorem readBytes_encBytes (bs out : List Byte)
    (h : encBytes bs = some out) (rest : List Byte) :
    readBytes (out ++ rest) = some (bs, rest) := by
  unfold encBytes at h
  split at h
  case isTrue hlen =>
    cases h
    rw [List.append_assoc, readBytes, readU32_u32Bytes _ hlen]
    simp [List.take_left, List.drop_left, Nat.le_add_right]
  case isFalse => cases h

theorem readN_encSeq (enc : α → Option (List Byte))
    (dec : List Byte → Option (α × List Byte))
    (hrt : ∀ a out, enc a = some out →
      ∀ rest, dec (out ++ rest) = some (a, rest)) :
    ∀ (xs : List α) (out : List Byte), encSeq enc xs = some out →
      ∀ rest, readN dec xs.length (out ++ rest) = some (xs, rest) := by
  intro xs
  induction xs with
  | nil =>
      intro out h rest
      cases h
      rfl
  | cons x xs ih =>
      intro out h rest
      unfold encSeq at h
      cases hx : enc x with
      | none => rw [hx] at h; cases h
      | some b =>
          cases hxs : encSeq enc xs with
          | none => rw [hx, hxs] at h; cases h
          | some bs =>
              rw [hx, hxs] at h
              cases h
              show readN dec (xs.length + 1) ((b ++ bs) ++ rest) = _
              simp only [List.append_assoc, readN, hrt x b hx,
                ih bs hxs]

theorem readVec_encVec (enc : α → Option (List Byte))
    (dec : List Byte → Option (α × List Byte))
    (hrt : ∀ a out, enc a = some out →
      ∀ rest, dec (out ++ rest) = some (a, rest))
    (xs : List α) (out : List Byte) (h : encVec enc xs = some out)
    (rest : List Byte) :
    readVec dec (out ++ rest) = some (xs, rest) := by
  unfold encVec at h
  split at h
  case isTrue hlen =>
    cases hxs : encSeq enc xs with
    | none => rw [hxs] at h; cases h
    | some body =>
        rw [hxs] at h
        cases h
        simp only [List.append_assoc, readVec, readU32_u32Bytes _ hlen,
          readN_encSeq enc dec hrt xs body hxs]
  case isFalse => cases h

/-- Serialized TrieNodeWithSize or state value. In the source `TrieValue`
is `std::sync::Arc<[u8]>`: an immutable reference-counted byte blob,
modelled by its byte contents. -/
abbrev TrieValue := List Byte

/-- `PartialState` from the source: state represented by the set of unique
trie values (`RawTrieNodeWithSize`s and state values), stored as a
`Vec<TrieValue>`. Equality is the derived field-by-field equality. -/
inductive PartialState where
  | TrieValues (values : List TrieValue)
  deriving DecidableEq

/-- The `Default` impl for `PartialState`: `TrieValues(vec![])`. -/
def PartialState.default : PartialState := .TrieValues []

/-- `PartialState::len`: the number of values in the `TrieValues` vector. -/
def PartialState.len : PartialState → Nat
  | .TrieValues values => values.length

/-- The `Debug` impl for `PartialState`: formats as
`format!("{0} trie values", values.len())` — only the count, never the
raw contents. -/
def PartialState.debugFmt : PartialState → String
  | .TrieValues values => toString values.length ++ " trie values"

/-- The blob sequence carried by a `PartialState`. -/
def PartialState.values : PartialState → List TrieValue
  | .TrieValues values => values

/-- borsh encoding of `PartialState`: enum tag `0` for `TrieValues`,
then the `Vec<TrieValue>`. -/
def encodePartialState : PartialState → Option (List Byte)
  | .TrieValues vs => (encVec encBytes vs).map (fun b => 0 :: b)

/-- borsh decoding of `PartialState`. -/
def decodePartialState (l : List Byte) : Option (PartialState × List Byte) :=
  match l with
  | 0 :: rest =>
      (readVec readBytes rest).map (fun pr => (.TrieValues pr.1, pr.2))
  | _ => none

/-- Modelled from the spec: `MerklePath` is an external capability
(an inclusion proof), consumed by this core as an opaque deterministic
serializable value; modelled by its canonical byte encoding. -/
structure MerklePath where
  bytes : List Byte
  deriving DecidableEq

/-- Modelled from the spec: `ShardChunk` is a consumed collaborator type
(structured chunk form), used opaquely; modelled by its canonical byte
encoding. -/
structure ShardChunk where
  bytes : List Byte
  deriving DecidableEq

/-- Modelled from the spec: `EncodedShardChunk` is a consumed collaborator
type (chunk wire form), used opaquely; modelled by its canonical byte
encoding. -/
structure EncodedShardChunk where
  bytes : List Byte
  deriving DecidableEq

/-- Modelled from the spec: `ShardChunkHeader` is a consumed collaborator
type, used opaquely; modelled by its canonical byte encoding. -/
structure ShardChunkHeader where
  bytes : List Byte
  deriving DecidableEq

/-- Modelled from the spec: `AccountId` is a validated account identifier
string; modelled by its byte contents (borsh serializes a string as a
length-prefixed byte sequence). -/
structure AccountId where
  bytes : List Byte
  deriving DecidableEq

/-- Modelled from the spec: `Signature` is produced by the opaque signing
capability; modelled by its canonical byte encoding. -/
structure Signature where
  bytes : List Byte
  deriving DecidableEq

/-- Modelled from the spec: `CryptoHash` is the fixed-size digest of the
cryptographic content hash, treated as an opaque value by this core. -/
structure CryptoHash where
  bytes : List Byte
  deriving DecidableEq

/-- Modelled from the spec: the content-hash function over a canonical
encoding (collision-resistant, treated as opaque); modelled as an
injective function of the encoded bytes. -/
def contentHash (bs : List Byte) : CryptoHash := ⟨bs⟩

/-- Modelled from the spec: `ValidatorSigner` is the external signing
capability — an identity accessor plus a deterministic
sign-these-bytes operation. -/
structure ValidatorSigner where
  validator_id : AccountId
  sign_bytes : List Byte → Signature

def encodeMerklePath (p : MerklePath) : Option (List Byte) :=
  encBytes p.bytes

def decodeMerklePath (l : List Byte) : Option (MerklePath × List Byte) :=
  (readBytes l).map (fun pr => (⟨pr.1⟩, pr.2))

def encodeShardChunk (c : ShardChunk) : Option (List Byte) :=
  encBytes c.bytes

def decodeShardChunk (l : List Byte) : Option (ShardChunk × List Byte) :=
  (readBytes l).map (fun pr => (⟨pr.1⟩, pr.2))

def encodeEncodedShardChunk (c : EncodedShardChunk) : Option (List Byte) :=
  encBytes c.bytes

def decodeEncodedShardChunk (l : List Byte) :
    Option (EncodedShardChunk × List Byte) :=
  (readBytes l).map (fun pr => (⟨pr.1⟩, pr.2))

def encodeShardChunkHeader (h : ShardChunkHeader) : Option (List Byte) :=
  encBytes h.bytes

def decodeShardChunkHeader (l : List Byte) :
    Option (ShardChunkHeader × List Byte) :=
  (readBytes l).map (fun pr => (⟨pr.1⟩, pr.2))

def encodeAccountId (a : AccountId) : Option (List Byte) :=
  encBytes a.bytes

def decodeAccountId (l : List Byte) : Option (AccountId × List Byte) :=
  (readBytes l).map (fun pr => (⟨pr.1⟩, pr.2))

def encodeSignature (s : Signature) : Option (List Byte) :=
  encBytes s.bytes

def decodeSignature (l : List Byte) : Option (Signature × List Byte) :=
  (readBytes l).map (fun pr => (⟨pr.1⟩, pr.2))

/-- `BlockDoubleSign` from the source: two encoded block headers. -/
structure BlockDoubleSign where
  left_block_header : List Byte
  right_block_header : List Byte
  deriving DecidableEq

/-- `MaybeEncodedShardChunk` from the source: either `EncodedShardChunk`
or `ShardChunk`. -/
inductive MaybeEncodedShardChunk where
  | Encoded (c : EncodedShardChunk)
  | Decoded (c : ShardChunk)
  deriving DecidableEq

/-- `ChunkProofs` from the source: encoded block header, Merkle proof of
inclusion, and the chunk (the `Box` is transparent for borsh). -/
structure ChunkProofs where
  block_header : List Byte
  merkle_proof : MerklePath
  chunk : MaybeEncodedShardChunk
  deriving DecidableEq

/-- `ChunkState` from the source. -/
structure ChunkState where
  prev_block_header : List Byte
  block_header : List Byte
  prev_merkle_proof : MerklePath
  prev_chunk : ShardChunk
  merkle_proof : MerklePath
  chunk_header : ShardChunkHeader
  partial_state : PartialState
  deriving DecidableEq

/-- `ChallengeBody` from the source: the closed union of the three
disputable facts. -/
inductive ChallengeBody where
  | BlockDoubleSign (b : BlockDoubleSign)
  | ChunkProofs (c : ChunkProofs)
  | ChunkState (c : ChunkState)
  deriving DecidableEq

/-- borsh encoding of `BlockDoubleSign`: the two `Vec<u8>` fields in
declaration order. -/
def encodeBlockDoubleSign (b : BlockDoubleSign) : Option (List Byte) :=
  match encBytes b.left_block_header, encBytes b.right_block_header with
  | some l, some r => some (l ++ r)
  | _, _ => none

/-- borsh decoding of `BlockDoubleSign`. -/
def decodeBlockDoubleSign (l : List Byte) :
    Option (BlockDoubleSign × List Byte) :=
  match readBytes l with
  | some (left, l1) =>
      match readBytes l1 with
      | some (right, l2) => some (⟨left, right⟩, l2)
      | none => none
  | none => none

/-- borsh encoding of `MaybeEncodedShardChunk`: tag `0` for `Encoded`,
tag `1` for `Decoded`. -/
def encodeMaybeEncodedShardChunk : MaybeEncodedShardChunk → Option (List Byte)
  | .Encoded c => (encodeEncodedShardChunk c).map (fun b => 0 :: b)
  | .Decoded c => (encodeShardChunk c).map (fun b => 1 :: b)

/-- borsh decoding of `MaybeEncodedShardChunk`. -/
def decodeMaybeEncodedShardChunk (l : List Byte) :
    Option (MaybeEncodedShardChunk × List Byte) :=
  match l with
  | 0 :: rest =>
      (decodeEncodedShardChunk rest).map (fun pr => (.Encoded pr.1, pr.2))
  | 1 :: rest =>
      (decodeShardChunk rest).map (fun pr => (.Decoded pr.1, pr.2))
  | _ => none

/-- borsh encoding of `ChunkProofs`: fields in declaration order
(the `Box` around the chunk is transparent). -/
def encodeChunkProofs (c : ChunkProofs) : Option (List Byte) :=
  match encBytes c.block_header, encodeMerklePath c.merkle_proof,
      encodeMaybeEncodedShardChunk c.chunk with
  | some h, some m, some k => some (h ++ m ++ k)
  | _, _, _ => none

/-- borsh decoding of `ChunkProofs`. -/
def decodeChunkProofs (l : List Byte) : Option (ChunkProofs × List Byte) :=
  match readBytes l with
  | some (h, l1) =>
      match decodeMerklePath l1 with
      | some (m, l2) =>
          match decodeMaybeEncodedShardChunk l2 with
          | some (k, l3) => some (⟨h, m, k⟩, l3)
          | none => none
      | none => none
  | none => none

/-- borsh encoding of `ChunkState`: the seven fields in declaration
order. -/
def encodeChunkState (c : ChunkState) : Option (List Byte) :=
  match encBytes c.prev_block_header, encBytes c.block_header,
      encodeMerklePath c.prev_merkle_proof, encodeShardChunk c.prev_chunk,
      encodeMerklePath c.merkle_proof, encodeShardChunkHeader c.chunk_header,
      encodePartialState c.partial_state with
  | some a, some b, some d, some e, some f, some g, some h =>
      some (a ++ b ++ d ++ e ++ f ++ g ++ h)
  | _, _, _, _, _, _, _ => none

/-- borsh decoding of `ChunkState`. -/
def decodeChunkState (l : List Byte) : Option (ChunkState × List Byte) :=
  match readBytes l with
  | some (a, l1) =>
      match readBytes l1 with
      | some (b, l2) =>
          match decodeMerklePath l2 with
          | some (d, l3) =>
              match decodeShardChunk l3 with
              | some (e, l4) =>
                  match decodeMerklePath l4 with
                  | some (f, l5) =>
                      match decodeShardChunkHeader l5 with
                      | some (g, l6) =>
                          match decodePartialState l6 with
                          | some (h, l7) => some (⟨a, b, d, e, f, g, h⟩, l7)
                          | none => none
                      | none => none
                  | none => none
              | none => none
          | none => none
      | none => none
  | none => none

/-- borsh encoding of `ChallengeBody`: tag `0` for `BlockDoubleSign`,
`1` for `ChunkProofs`, `2` for `ChunkState`. -/
def encodeChallengeBody : ChallengeBody → Option (List Byte)
  | .BlockDoubleSign b => (encodeBlockDoubleSign b).map (fun x => 0 :: x)
  | .ChunkProofs c => (encodeChunkProofs c).map (fun x => 1 :: x)
  | .ChunkState c => (encodeChunkState c).map (fun x => 2 :: x)

/-- borsh decoding of `ChallengeBody`. -/
def decodeChallengeBody (l : List Byte) : Option (ChallengeBody × List Byte) :=
  match l with
  | 0 :: rest =>
      (decodeBlockDoubleSign rest).map (fun pr => (.BlockDoubleSign pr.1, pr.2))
  | 1 :: rest =>
      (decodeChunkProofs rest).map (fun pr => (.ChunkProofs pr.1, pr.2))
  | 2 :: rest =>
      (decodeChunkState rest).map (fun pr => (.ChunkState pr.1, pr.2))
  | _ => none

/-- `Challenge` from the source: body, account id, signature, and the
`#[borsh(skip)]` derived hash field. -/
structure Challenge where
  body : ChallengeBody
  account_id : AccountId
  signature : Signature
  hash : CryptoHash
  deriving DecidableEq

/-- `CryptoHash::hash_borsh(&body)`: the content hash of the borsh
serialization of the body (`none` models the panic when serialization
fails). -/
def hashBorshBody (b : ChallengeBody) : Option CryptoHash :=
  (encodeChallengeBody b).map contentHash

/-- `Challenge::init` from the source: recompute
`self.hash = CryptoHash::hash_borsh(&self.body)`, leaving the other
fields alone. -/
def Challenge.init (c : Challenge) : Option Challenge :=
  (hashBorshBody c.body).map (fun h => { c with hash := h })

/-- `Challenge::produce` from the source: hash the body, sign the hash
bytes, and assemble the envelope with the signer's validator id. -/
def Challenge.produce (body : ChallengeBody) (signer : ValidatorSigner) :
    Option Challenge :=
  match hashBorshBody body with
  | some hash =>
      some { body := body, account_id := signer.validator_id,
             signature := signer.sign_bytes hash.bytes, hash := hash }
  | none => none

/-- borsh encoding of `Challenge`: body, account id and signature in
declaration order; the `hash` field is `#[borsh(skip)]` and is not
written. -/
def encodeChallenge (c : Challenge) : Option (List Byte) :=
  match encodeChallengeBody c.body, encodeAccountId c.account_id,
      encodeSignature c.signature with
  | some b, some a, some s => some (b ++ a ++ s)
  | _, _, _ => none

/-- borsh decoding of `Challenge`: decode the three serialized fields,
then run the `#[borsh(init=init)]` hook, which derives `hash` from the
decoded body (the transmitted bytes carry no hash). -/
def decodeChallenge (l : List Byte) : Option (Challenge × List Byte) :=
  match decodeChallengeBody l with
  | some (body, l1) =>
      match decodeAccountId l1 with
      | some (aid, l2) =>
          match decodeSignature l2 with
          | some (sig, l3) =>
              match hashBorshBody body with
              | some h =>
                  some ({ body := body, account_id := aid, signature := sig,
                          hash := h }, l3)
              | none => none
          | none => none
      | none => none
  | none => none

theorem decodeMerklePath_round (p : MerklePath) (out : List Byte)
    (h : encodeMerklePath p = some out) (rest : List Byte) :
    decodeMerklePath (out ++ rest) = some (p, rest) := by
  unfold encodeMerklePath at h
  unfold decodeMerklePath
  rw [readBytes_encBytes _ _ h rest]
  rfl

theorem decodeShardChunk_round (c : ShardChunk) (out : List Byte)
    (h : encodeShardChunk c = some out) (rest : List Byte) :
    decodeShardChunk (out ++ rest) = some (c, rest) := by
  unfold encodeShardChunk at h
  unfold decodeShardChunk
  rw [readBytes_encBytes _ _ h rest]
  rfl

theorem decodeEncodedShardChunk_round (c : EncodedShardChunk)
    (out : List Byte) (h : encodeEncodedShardChunk c = some out)
    (rest : List Byte) :
    decodeEncodedShardChunk (out ++ rest) = some (c, rest) := by
  unfold encodeEncodedShardChunk at h
  unfold decodeEncodedShardChunk
  rw [readBytes_encBytes _ _ h rest]
  rfl

theorem decodeShardChunkHeader_round (c : ShardChunkHeader)
    (out : List Byte) (h : encodeShardChunkHeader c = some out)
    (rest : List Byte) :
    decodeShardChunkHeader (out ++ rest) = some (c, rest) := by
  unfold encodeShardChunkHeader at h
  unfold decodeShardChunkHeader
  rw [readBytes_encBytes _ _ h rest]
  rfl

theorem decodeAccountId_round (a : AccountId) (out : List Byte)
    (h : encodeAccountId a = some out) (rest : List Byte) :
    decodeAccountId (out ++ rest) = some (a, rest) := by
  unfold encodeAccountId at h
  unfold decodeAccountId
  rw [readBytes_encBytes _ _ h rest]
  rfl

theorem decodeSignature_round (s : Signature) (out : List Byte)
    (h : encodeSignature s = some out) (rest : List Byte) :
    decodeSignature (out ++ rest) = some (s, rest) := by
  unfold encodeSignature at h
  unfold decodeSignature
  rw [readBytes_encBytes _ _ h rest]
  rfl

theorem decodePartialState_round (ps : PartialState) (out : List Byte)
    (h : encodePartialState ps = some out) (rest : List Byte) :
    decodePartialState (out ++ rest) = some (ps, rest) := by
  cases ps with
  | TrieValues vs =>
      simp only [encodePartialState] at h
      cases hv : encVec encBytes vs with
      | none => rw [hv] at h; cases h
      | some b =>
          rw [hv] at h
          cases h
          simp only [List.cons_append, decodePartialState,
            readVec_encVec encBytes readBytes readBytes_encBytes vs b hv,
            Option.map_some']

theorem decodeBlockDoubleSign_round (b : BlockDoubleSign)
    (out : List Byte) (h : encodeBlockDoubleSign b = some out)
    (rest : List Byte) :
    decodeBlockDoubleSign (out ++ rest) = some (b, rest) := by
  unfold encodeBlockDoubleSign at h
  cases hl : encBytes b.left_block_header with
  | none => rw [hl] at h; cases h
  | some lb =>
      cases hr : encBytes b.right_block_header with
      | none => rw [hl, hr] at h; cases h
      | some rb =>
          rw [hl, hr] at h
          cases h
          simp only [List.append_assoc, decodeBlockDoubleSign,
            readBytes_encBytes _ _ hl, readBytes_encBytes _ _ hr]

theorem decodeMaybeEncodedShardChunk_round (k : MaybeEncodedShardChunk)
    (out : List Byte) (h : encodeMaybeEncodedShardChunk k = some out)
    (rest : List Byte) :
    decodeMaybeEncodedShardChunk (out ++ rest) = some (k, rest) := by
  cases k with
  | Encoded c =>
      simp only [encodeMaybeEncodedShardChunk] at h
      cases hc : encodeEncodedShardChunk c with
      | none => rw [hc] at h; cases h
      | some b =>
          rw [hc] at h
          cases h
          simp only [List.cons_append, decodeMaybeEncodedShardChunk,
            decodeEncodedShardChunk_round c b hc, Option.map_some']
  | Decoded c =>
      simp only [encodeMaybeEncodedShardChunk] at h
      cases hc : encodeShardChunk c with
      | none => rw [hc] at h; cases h
      | some b =>
          rw [hc] at h
          cases h
          simp only [List.cons_append, decodeMaybeEncodedShardChunk,
            decodeShardChunk_round c b hc, Option.map_some']

theorem decodeChunkProofs_round (c : ChunkProofs) (out : List Byte)
    (h : encodeChunkProofs c = some out) (rest : List Byte) :
    decodeChunkProofs (out ++ rest) = some (c, rest) := by
  unfold encodeChunkProofs at h
  cases hh : encBytes c.block_header with
  | none => rw [hh] at h; cases h
  | some bh =>
      cases hm : encodeMerklePath c.merkle_proof with
      | none => rw [hh, hm] at h; cases h
      | some mp =>
          cases hk : encodeMaybeEncodedShardChunk c.chunk with
          | none => rw [hh, hm, hk] at h; cases h
          | some kb =>
              rw [hh, hm, hk] at h
              cases h
              simp only [List.append_assoc, decodeChunkProofs,
                readBytes_encBytes _ _ hh, decodeMerklePath_round _ _ hm,
                decodeMaybeEncodedShardChunk_round _ _ hk]

theorem decodeChunkState_round (c : ChunkState) (out : List Byte)
    (h : encodeChunkState c = some out) (rest : List Byte) :
    decodeChunkState (out ++ rest) = some (c, rest) := by
  unfold encodeChunkState at h
  cases h1 : encBytes c.prev_block_header with
  | none => rw [h1] at h; cases h
  | some b1 =>
  cases h2 : encBytes c.block_header with
  | none => rw [h1, h2] at h; cases h
  | some b2 =>
  cases h3 : encodeMerklePath c.prev_merkle_proof with
  | none => rw [h1, h2, h3] at h; cases h
  | some b3 =>
  cases h4 : encodeShardChunk c.prev_chunk with
  | none => rw [h1, h2, h3, h4] at h; cases h
  | some b4 =>
  cases h5 : encodeMerklePath c.merkle_proof with
  | none => rw [h1, h2, h3, h4, h5] at h; cases h
  | some b5 =>
  cases h6 : encodeShardChunkHeader c.chunk_header with
  | none => rw [h1, h2, h3, h4, h5, h6] at h; cases h
  | some b6 =>
  cases h7 : encodePartialState c.partial_state with
  | none => rw [h1, h2, h3, h4, h5, h6, h7] at h; cases h
  | some b7 =>
  rw [h1, h2, h3, h4, h5, h6, h7] at h
  cases h
  simp only [List.append_assoc, decodeChunkState,
    readBytes_encBytes _ _ h1, readBytes_encBytes _ _ h2,
    decodeMerklePath_round _ _ h3, decodeShardChunk_round _ _ h4,
    decodeMerklePath_round _ _ h5, decodeShardChunkHeader_round _ _ h6,
    decodePartialState_round _ _ h7]

theorem decodeChallengeBody_round (b : ChallengeBody) (out : List Byte)
    (h : encodeChallengeBody b = some out) (rest : List Byte) :
    decodeChallengeBody (out ++ rest) = some (b, rest) := by
  cases b with
  | BlockDoubleSign d =>
      simp only [encodeChallengeBody] at h
      cases hd : encodeBlockDoubleSign d with
      | none => rw [hd] at h; cases h
      | some bb =>
          rw [hd] at h
          cases h
          simp only [List.cons_append, decodeChallengeBody,
            decodeBlockDoubleSign_round d bb hd, Option.map_some']
  | ChunkProofs d =>
      simp only [encodeChallengeBody] at h
      cases hd : encodeChunkProofs d with
      | none => rw [hd] at h; cases h
      | some bb =>
          rw [hd] at h
          cases h
          simp only [List.cons_append, decodeChallengeBody,
            decodeChunkProofs_round d bb hd, Option.map_some']
  | ChunkState d =>
      simp only [encodeChallengeBody] at h
      cases hd : encodeChunkState d with
      | none => rw [hd] at h; cases h
      | some bb =>
          rw [hd] at h
          cases h
          simp only [List.cons_append, decodeChallengeBody,
            decodeChunkState_round d bb hd, Option.map_some']

theorem decodeChallenge_round (c : Challenge) (out : List Byte)
    (h : encodeChallenge c = some out) (hb : CryptoHash)
    (hhb : hashBorshBody c.body = some hb) (rest : List Byte) :
    decodeChallenge (out ++ rest) = some ({ c with hash := hb }, rest) := by
  unfold encodeChallenge at h
  cases h1 : encodeChallengeBody c.body with
  | none => rw [h1] at h; cases h
  | some bb =>
  cases h2 : encodeAccountId c.account_id with
  | none => rw [h1, h2] at h; cases h
  | some ab =>
  cases h3 : encodeSignature c.signature with
  | none => rw [h1, h2, h3] at h; cases h
  | some sb =>
  rw [h1, h2, h3] at h
  cases h
  simp only [List.append_assoc, decodeChallenge,
    decodeChallengeBody_round _ _ h1, decodeAccountId_round _ _ h2,
    decodeSignature_round _ _ h3, hhb]

/-- A concrete challenge body used to exercise the theorems. -/
def sampleBody : ChallengeBody := .BlockDoubleSign ⟨[1], [2]⟩

/-- A second, distinct concrete challenge body. -/
def sampleBody2 : ChallengeBody := .BlockDoubleSign ⟨[2], [1]⟩

/-- A concrete signer: identity `"a"` (byte 97), deterministic signing. -/
def sampleSigner : ValidatorSigner := ⟨⟨[97]⟩, fun bs => ⟨0 :: bs⟩⟩

/-- The borsh encoding of `sampleBody`. -/
def sampleEncoding : List Byte := [0, 1, 0, 0, 0, 1, 1, 0, 0, 0, 2]

/-- The content hash of `sampleBody`'s encoding. -/
def sampleHash : CryptoHash := contentHash sampleEncoding

/-- The challenge `Challenge::produce(sampleBody, sampleSigner)` builds. -/
def sampleChallenge : Challenge :=
  ⟨sampleBody, sampleSigner.validator_id,
    sampleSigner.sign_bytes sampleHash.bytes, sampleHash⟩

/-- The wire bytes of `sampleChallenge`. -/
def sampleWire : List Byte := (encodeChallenge sampleChallenge).getD []

/-- `sampleChallenge` with its derived hash field overwritten by hand. -/
def tamperedChallenge : Challenge :=
  { sampleChallenge with hash := contentHash [9, 9] }

/-- C1: for every challenge body and every signer, `Challenge::produce`
returns a challenge whose hash is the content hash of the canonical
(borsh) serialization of the body alone, whose signature is the signer's
signature over the bytes of that hash, whose account id is the signer's
validator identity, and whose body is the given body unchanged. -/
theorem claim_C1 (body : ChallengeBody) (signer : ValidatorSigner)
    (c : Challenge) (e : List Byte)
    (hp : Challenge.produce body signer = some c)
    (he : encodeChallengeBody body = some e) :
    c.hash = contentHash e ∧
    c.signature = signer.sign_bytes c.hash.bytes ∧
    c.account_id = signer.validator_id ∧
    c.body = body := by
  unfold Challenge.produce at hp
  cases hh : hashBorshBody body with
  | none => rw [hh] at hp; cases hp
  | some hv =>
      rw [hh] at hp
      cases hp
      unfold hashBorshBody at hh
      rw [he] at hh
      cases hh
      exact ⟨rfl, rfl, rfl, rfl⟩

theorem claim_C1_witness :
    sampleChallenge.hash = contentHash sampleEncoding ∧
    sampleChallenge.signature =
      sampleSigner.sign_bytes sampleChallenge.hash.bytes ∧
    sampleChallenge.account_id = sampleSigner.validator_id ∧
    sampleChallenge.body = sampleBody :=
  claim_C1 sampleBody sampleSigner sampleChallenge sampleEncoding
    (by rfl) (by rfl)

/-- C2: the hash field of a challenge is excluded from the serialized wire
form (two challenges differing only in their hash encode identically), and
every challenge obtained from deserialization carries
`hash = ContentHash(body)` recomputed from the decoded body, never a value
taken from the wire bytes. -/
theorem claim_C2 (c : Challenge) (h1 h2 : CryptoHash) (l : List Byte)
    (c2 : Challenge) (rest : List Byte)
    (hdec : decodeChallenge l = some (c2, rest)) :
    encodeChallenge { c with hash := h1 } =
      encodeChallenge { c with hash := h2 } ∧
    hashBorshBody c2.body = some c2.hash := by
  refine ⟨rfl, ?_⟩
  unfold decodeChallenge at hdec
  cases hd1 : decodeChallengeBody l with
  | none => rw [hd1] at hdec; cases hdec
  | some pr1 =>
  obtain ⟨body1, l1⟩ := pr1
  simp only [hd1] at hdec
  cases hd2 : decodeAccountId l1 with
  | none => simp only [hd2] at hdec; cases hdec
  | some pr2 =>
  obtain ⟨aid1, l2⟩ := pr2
  simp only [hd2] at hdec
  cases hd3 : decodeSignature l2 with
  | none => simp only [hd3] at hdec; cases hdec
  | some pr3 =>
  obtain ⟨sig1, l3⟩ := pr3
  simp only [hd3] at hdec
  cases hd4 : hashBorshBody body1 with
  | none => simp only [hd4] at hdec; cases hdec
  | some hv =>
      simp only [hd4] at hdec
      cases hdec
      exact hd4

theorem claim_C2_witness :
    encodeChallenge { sampleChallenge with hash := contentHash [3] } =
      encodeChallenge { sampleChallenge with hash := contentHash [4] } ∧
    hashBorshBody sampleChallenge.body = some sampleChallenge.hash :=
  claim_C2 sampleChallenge (contentHash [3]) (contentHash [4]) sampleWire
    sampleChallenge [] (by rfl)

/-- C3: decoding the canonical encoding of a `PartialState`, a
`ChallengeBody`, or a `Challenge` yields the original value (binary-exact
for the contained byte blobs), with the challenge's hash field re-derived
from the decoded body rather than copied from the wire bytes. -/
theorem claim_C3 (ps : PartialState) (b : ChallengeBody) (c : Challenge)
    (ops obd och : List Byte) (hb : CryptoHash)
    (hps : encodePartialState ps = some ops)
    (hbd : encodeChallengeBody b = some obd)
    (hch : encodeChallenge c = some och)
    (hhb : hashBorshBody c.body = some hb) :
    decodePartialState ops = some (ps, []) ∧
    decodeChallengeBody obd = some (b, []) ∧
    decodeChallenge och = some ({ c with hash := hb }, []) := by
  have r1 := decodePartialState_round ps ops hps []
  have r2 := decodeChallengeBody_round b obd hbd []
  have r3 := decodeChallenge_round c och hch hb hhb []
  rw [List.append_nil] at r1 r2 r3
  exact ⟨r1, r2, r3⟩

theorem claim_C3_witness :
    decodePartialState [0, 2, 0, 0, 0, 1, 0, 0, 0, 5, 1, 0, 0, 0, 6] =
      some (PartialState.TrieValues [[5], [6]], []) ∧
    decodeChallengeBody sampleEncoding = some (sampleBody, []) ∧
    decodeChallenge sampleWire =
      some ({ sampleChallenge with hash := sampleHash }, []) :=
  claim_C3 (PartialState.TrieValues [[5], [6]]) sampleBody sampleChallenge
    [0, 2, 0, 0, 0, 1, 0, 0, 0, 5, 1, 0, 0, 0, 6] sampleEncoding sampleWire
    sampleHash (by rfl) (by rfl) (by rfl) (by rfl)

/-- C4: for distinct bodies, the challenges produced by the same signer
carry distinct hashes whenever the content-hash function does not collide
on the two canonical encodings of the bodies. -/
theorem claim_C4 (b1 b2 : ChallengeBody) (s : ValidatorSigner)
    (c1 c2 : Challenge) (e1 e2 : List Byte)
    (hne : b1 ≠ b2)
    (he1 : encodeChallengeBody b1 = some e1)
    (he2 : encodeChallengeBody b2 = some e2)
    (hcoll : contentHash e1 ≠ contentHash e2)
    (hp1 : Challenge.produce b1 s = some c1)
    (hp2 : Challenge.produce b2 s = some c2) :
    c1.hash ≠ c2.hash := by
  have g1 := (claim_C1 b1 s c1 e1 hp1 he1).1
  have g2 := (claim_C1 b2 s c2 e2 hp2 he2).1
  rw [g1, g2]
  exact hcoll

/-- The borsh encoding of `sampleBody2`. -/
def sampleEncoding2 : List Byte := [0, 1, 0, 0, 0, 2, 1, 0, 0, 0, 1]

/-- The challenge `Challenge::produce(sampleBody2, sampleSigner)` builds. -/
def sampleChallenge2 : Challenge :=
  ⟨sampleBody2, sampleSigner.validator_id,
    sampleSigner.sign_bytes (contentHash sampleEncoding2).bytes,
    contentHash sampleEncoding2⟩

theorem claim_C4_witness : sampleChallenge.hash ≠ sampleChallenge2.hash :=
  claim_C4 sampleBody sampleBody2 sampleSigner sampleChallenge
    sampleChallenge2 sampleEncoding sampleEncoding2 (by decide) (by rfl)
    (by rfl) (by decide) (by rfl) (by rfl)

/-- C5 counterexample: the blob sequence of a `PartialState` is
order-sensitive — two values holding the same collection of blobs in a
different order are a permutation of each other, yet compare unequal. -/
theorem claim_C5_counterexample :
    (PartialState.TrieValues [[1], [2]]).values.Perm
      (PartialState.TrieValues [[2], [1]]).values ∧
    PartialState.TrieValues [[1], [2]] ≠ PartialState.TrieValues [[2], [1]] := by
  exact ⟨by decide, by decide⟩

/-- C5 (amended): `PartialState` stores its blobs as an ordered sequence;
two values containing the same collection of blobs, possibly in different
order, are equal exactly when their blob sequences coincide verbatim —
equality is order-sensitive, not set-like. -/
theorem claim_C5 (p1 p2 : PartialState) (hperm : p1.values.Perm p2.values) :
    p1 = p2 ↔ p1.values = p2.values := by
  cases p1 with
  | TrieValues v1 =>
      cases p2 with
      | TrieValues v2 => simp [PartialState.values]

theorem claim_C5_witness :
    (PartialState.TrieValues [[1], [2]] = PartialState.TrieValues [[2], [1]]) ↔
      (PartialState.TrieValues [[1], [2]]).values =
        (PartialState.TrieValues [[2], [1]]).values :=
  claim_C5 (PartialState.TrieValues [[1], [2]])
    (PartialState.TrieValues [[2], [1]]) (by decide)

/-- C6: equality of `PartialState` is derived from the blob sequence
verbatim — two values compare equal exactly when their blob sequences are
equal as lists (same length and byte-identical position by position). -/
theorem claim_C6 (p1 p2 : PartialState) : p1 = p2 ↔ p1.values = p2.values := by
  cases p1 with
  | TrieValues v1 =>
      cases p2 with
      | TrieValues v2 => simp [PartialState.values]

/-- C7: `len` returns the number of blobs; the default `PartialState` is
`TrieValues` of the empty sequence with `len() == 0`; and the debug
representation of any `PartialState` is determined by the blob count
alone, never exposing the raw byte contents. -/
theorem claim_C7 :
    (∀ vs : List TrieValue, (PartialState.TrieValues vs).len = vs.length) ∧
    PartialState.default = PartialState.TrieValues [] ∧
    PartialState.default.len = 0 ∧
    (∀ ps : PartialState, ps.debugFmt = toString ps.len ++ " trie values") ∧
    (∀ p1 p2 : PartialState, p1.len = p2.len → p1.debugFmt = p2.debugFmt) := by
  refine ⟨fun vs => rfl, rfl, rfl, fun ps => ?_, fun p1 p2 h => ?_⟩
  · cases ps
    rfl
  · cases p1 with
    | TrieValues v1 =>
        cases p2 with
        | TrieValues v2 =>
            simp only [PartialState.len] at h
            simp only [PartialState.debugFmt, h]

theorem claim_C7_witness :
    (PartialState.TrieValues [[1], [2], [3]]).debugFmt =
      (PartialState.TrieValues [[9], [8], [7]]).debugFmt :=
  claim_C7.2.2.2.2 (PartialState.TrieValues [[1], [2], [3]])
    (PartialState.TrieValues [[9], [8], [7]]) (by decide)

/-- C8: the operations of this core are deterministic pure functions —
two runs of `produce` (under a deterministic signer), `len`, equality, or
body hashing on equal immutable inputs return equal results. -/
theorem claim_C8 (b1 b2 : ChallengeBody) (s1 s2 : ValidatorSigner)
    (p1 p2 q : PartialState)
    (hb : b1 = b2) (hs : s1 = s2) (hp : p1 = p2) :
    Challenge.produce b1 s1 = Challenge.produce b2 s2 ∧
    p1.len = p2.len ∧
    ((p1 = q) ↔ (p2 = q)) ∧
    hashBorshBody b1 = hashBorshBody b2 := by
  subst hb
  subst hs
  subst hp
  exact ⟨rfl, rfl, Iff.rfl, rfl⟩

theorem claim_C8_witness :
    Challenge.produce sampleBody sampleSigner =
      Challenge.produce sampleBody sampleSigner ∧
    PartialState.default.len = PartialState.default.len ∧
    ((PartialState.default = PartialState.TrieValues []) ↔
      (PartialState.default = PartialState.TrieValues [])) ∧
    hashBorshBody sampleBody = hashBorshBody sampleBody :=
  claim_C8 sampleBody sampleBody sampleSigner sampleSigner
    PartialState.default PartialState.default (PartialState.TrieValues [])
    rfl rfl rfl

/-- C9: `Challenge::init` sets the hash field to the content hash of the
borsh serialization of the body and leaves the body, account id and
signature unchanged; applied to the output of `Challenge::produce` it is
the identity (init agrees with produce and is idempotent there). -/
theorem claim_C9 (c c2 : Challenge) (body : ChallengeBody)
    (s : ValidatorSigner) (cp : Challenge)
    (hinit : Challenge.init c = some c2)
    (hprod : Challenge.produce body s = some cp) :
    c2.body = c.body ∧ c2.account_id = c.account_id ∧
    c2.signature = c.signature ∧ hashBorshBody c.body = some c2.hash ∧
    Challenge.init cp = some cp := by
  unfold Challenge.init at hinit
  cases hh : hashBorshBody c.body with
  | none => rw [hh] at hinit; cases hinit
  | some hv =>
      rw [hh] at hinit
      cases hinit
      refine ⟨rfl, rfl, rfl, rfl, ?_⟩
      unfold Challenge.produce at hprod
      cases hb2 : hashBorshBody body with
      | none => rw [hb2] at hprod; cases hprod
      | some hv2 =>
          rw [hb2] at hprod
          cases hprod
          unfold Challenge.init
          rw [hb2]
          rfl

theorem claim_C9_witness :
    sampleChallenge.body = tamperedChallenge.body ∧
    sampleChallenge.account_id = tamperedChallenge.account_id ∧
    sampleChallenge.signature = tamperedChallenge.signature ∧
    hashBorshBody tamperedChallenge.body = some sampleChallenge.hash ∧
    Challenge.init sampleChallenge = some sampleChallenge :=
  claim_C9 tamperedChallenge sampleChallenge sampleBody sampleSigner
    sampleChallenge (by rfl) (by rfl)

/-- C10: equality of `Challenge` compares all four fields including the
derived hash: two challenges with identical body, account id and
signature but different hash fields compare unequal, even though they
serialize to identical wire bytes. -/
theorem claim_C10 :
    sampleChallenge.body = tamperedChallenge.body ∧
    sampleChallenge.account_id = tamperedChallenge.account_id ∧
    sampleChallenge.signature = tamperedChallenge.signature ∧
    sampleChallenge.hash ≠ tamperedChallenge.hash ∧
    sampleChallenge ≠ tamperedChallenge ∧
    encodeChallenge sampleChallenge = encodeChallenge tamperedChallenge := by
  refine ⟨rfl, rfl, rfl, ?_, ?_, rfl⟩
  · decide
  · decide

end Challenges
